import Mathlib

/-!
# The import handler of cso-api (`src/import/index.js`)

The source is one exported function:

    module.exports = (req, res) => {
      const providers = [mh]
      retrieveObservations(providers)
        .then(data => insertObservations(data))
        .then(results => res.end(results))
    }

Its behaviour is asynchronous, so the embedding has two layers.

* A small model of the JavaScript promise machinery the handler runs on:
  a promise store, reactions registered by `.then`, the microtask queue and
  the host turns that invoke the handler and deliver finished I/O.
* The handler itself, `importHandler`, written statement for statement over
  that machinery, with the state passed explicitly.

`mh`, `retrieveObservations` and `insertObservations` come from modules that
are not part of the file; they are the fields of `Env` and every theorem
quantifies over them. A collaborator is taken to return a promise, as its
contract says: one that is settled already, one that the host settles in a
later turn, or one that never settles. The response object belongs to the
host as well: whether its `end` takes the chunk it is given or throws, and
what it hands back, is the field `resEnd` of `Env`, so the theorems hold for a
response that takes any value and for one that, like Node's, takes strings
only. A terminal write that is taken does to the response what
`Response.finish` records.

The microtask queue is drained with a fuel bound; one invocation never queues
more than four jobs in a turn, and the theorems about one invocation ask for
that much fuel. They start the invocation in a state in which nothing else is
queued or in flight, with any history before it, and let the host deliver the
oldest operation in flight `n` times; by `deliveries_in_order` every other
sequence of deliveries after the request gives the same run as one of these.
The theorems about arbitrary runs (the provider list, request independence,
the first part of the response frame) have no such conditions.
-/

namespace CsoApi

/-! ## Values, requests and responses -/

/-- JavaScript values as far as the handler can meet them. The handler never
inspects a value: it only passes values on. -/
inductive Val where
  | undefined
  | null
  | bool (b : Bool)
  | num (n : Int)
  | str (s : String)
  | arr (items : List Val)
  | obj (fields : List (String × Val))

/-- The incoming request object `req`. -/
structure Req where
  method : String
  url : String
  headers : List (String × String)
  body : Val

/-- The response object `res`: its status code and headers, the arguments of
the terminal writes it has received (oldest first) and whether it has been
terminated. -/
structure Response where
  statusCode : Nat
  headers : List (String × String)
  ended : List Val
  finished : Bool

/-- What a terminal write does to the response object when the object takes
the chunk: the chunk is recorded as it is and the response is terminated.
Status code and headers are not the business of this operation. -/
def Response.finish (r : Response) (chunk : Val) : Response :=
  { r with ended := r.ended ++ [chunk], finished := true }

/-! ## Promises -/

/-- How a promise settles. -/
inductive Outcome where
  | fulfilled (v : Val)
  | rejected (e : Val)

/-- The future a collaborator hands back: a promise that is already settled
when it is returned, one that the host settles in a later turn, or one that
stays pending for ever. -/
inductive Future where
  | settled (o : Outcome)
  | later (o : Outcome)
  | never

/-- The future settles, now or later, by fulfilling with `v`. -/
def Future.resolvesWith (f : Future) (v : Val) : Prop :=
  f = Future.settled (Outcome.fulfilled v) ∨ f = Future.later (Outcome.fulfilled v)

/-- The future settles, now or later, by rejecting with `e`. -/
def Future.rejectsWith (f : Future) (e : Val) : Prop :=
  f = Future.settled (Outcome.rejected e) ∨ f = Future.later (Outcome.rejected e)

/-- The two function literals of the handler, defunctionalised:
`insertCb` is `data => insertObservations(data)` and
`endCb res` is `results => res.end(results)` closed over `res`. -/
inductive Callback where
  | insertCb
  | endCb (res : Nat)

/-- What a promise does when it settles. `call cb d` is registered by
`p.then(cb)`: on fulfilment run `cb` and resolve the derived promise `d` with
what it returns, on rejection (no `onRejected` was given) reject `d` with the
same reason. `forward d` is the pair of resolving functions of `d`, registered
when `d` was resolved with another promise. -/
inductive Reaction where
  | call (cb : Callback) (derived : Nat)
  | forward (derived : Nat)

/-- State of one promise. -/
inductive PState where
  | pending (reactions : List Reaction)
  | settled (o : Outcome)

/-- Jobs of the microtask queue: a promise reaction job, and the job that
makes a promise follow the promise it was resolved with. -/
inductive Job where
  | reaction (r : Reaction) (o : Outcome)
  | resolveThenable (derived : Nat) (thenable : Nat)

/-- How a callback ends: it returns a plain value, it returns a promise, or
it throws. -/
inductive Ret where
  | value (v : Val)
  | promise (p : Nat)
  | throw (e : Val)

/-- What the response object makes of a call of `end`: it takes the chunk and
hands a value back, or it refuses the chunk and throws. -/
inductive EndResult where
  | returns (v : Val)
  | throws (e : Val)

/-- Which collaborator a future came from. -/
inductive Origin where
  | retrieval
  | insertion

/-- The observable events of a run, in the order they happen: the calls the
handler makes (`resEnd res chunk` is the call `res.end(chunk)`) and the
settling of the collaborators' futures. -/
inductive Event where
  | retrieveCall (providers : Val)
  | insertCall (data : Val)
  | settled (origin : Origin) (o : Outcome)
  | resEnd (res : Nat) (chunk : Val)

/-- An I/O operation in flight: the promise it will settle, the collaborator
that started it and the outcome it will have. -/
structure Pending where
  promise : Nat
  origin : Origin
  outcome : Outcome

/-- What the handler is given from outside. `mh` is
`require('./mountainhub')`; the two functions are the exports of
`./observations`, each given the number of earlier calls to it, so that it
may answer every call differently, and its argument. `resEnd` is the host's
`end` method: given the response, its present state and the chunk, it says
whether the chunk is taken and what is handed back or thrown. -/
structure Env where
  mh : Val
  retrieveObservations : Nat → Val → Future
  insertObservations : Nat → Val → Future
  resEnd : Nat → Response → Val → EndResult

/-- State of the process between two steps. -/
structure World where
  promises : Nat → PState
  nextPromise : Nat
  microtasks : List Job
  outstanding : List Pending
  responses : Nat → Response
  trace : List Event
  retrieveCalls : Nat
  insertCalls : Nat

/-- Nothing is queued and no I/O is in flight. -/
def World.quiescent (w : World) : Prop :=
  w.microtasks = [] ∧ w.outstanding = []

/-- Append an event to the trace. -/
def World.log (w : World) (e : Event) : World :=
  { w with trace := w.trace ++ [e] }

/-- Append a job to the microtask queue. -/
def World.enqueue (w : World) (js : List Job) : World :=
  { w with microtasks := w.microtasks ++ js }

/-- Create a promise in the given state; its index is the value of
`nextPromise` before the call. -/
def World.alloc (w : World) (s : PState) : World :=
  { w with promises := Function.update w.promises w.nextPromise s,
           nextPromise := w.nextPromise + 1 }

/-- Settle a pending promise and queue one reaction job per registered
reaction, in the order of registration (the language's FulfillPromise and
RejectPromise); a promise that is already settled stays as it is. -/
def settlePromise (p : Nat) (o : Outcome) (w : World) : World :=
  match w.promises p with
  | PState.pending rs =>
      ({ w with promises := Function.update w.promises p (PState.settled o) }).enqueue
        (rs.map (fun r => Job.reaction r o))
  | PState.settled _ => w

/-- Register a reaction on a promise (the language's PerformPromiseThen):
stored while the promise is pending, queued as a job at once when it is
already settled. -/
def addReaction (p : Nat) (r : Reaction) (w : World) : World :=
  match w.promises p with
  | PState.pending rs =>
      { w with promises := Function.update w.promises p (PState.pending (rs ++ [r])) }
  | PState.settled o => w.enqueue [Job.reaction r o]

/-- The call `p.then(cb)` with one argument: a new pending promise is derived
and returned, and `cb` is registered on `p`. -/
def promiseThen (p : Nat) (cb : Callback) (w : World) : Nat × World :=
  (w.nextPromise,
   addReaction p (Reaction.call cb w.nextPromise) (w.alloc (PState.pending [])))

/-- Settle the promise derived by `.then` according to how the callback
ended: a plain value fulfils it, a promise makes it follow that promise from
the next microtask on, a thrown value rejects it. -/
def resolvePromise (d : Nat) (x : Ret) (w : World) : World :=
  match x with
  | Ret.value v => settlePromise d (Outcome.fulfilled v) w
  | Ret.promise q => w.enqueue [Job.resolveThenable d q]
  | Ret.throw e => settlePromise d (Outcome.rejected e) w

/-- A collaborator returns its future as a new promise: already settled,
pending with the I/O operation that will settle it in flight, or pending for
ever. -/
def World.spawn (w : World) (origin : Origin) (f : Future) : Nat × World :=
  match f with
  | Future.settled o =>
      (w.nextPromise, (w.log (Event.settled origin o)).alloc (PState.settled o))
  | Future.later o =>
      (w.nextPromise,
       { w.alloc (PState.pending []) with
           outstanding := w.outstanding ++ [Pending.mk w.nextPromise origin o] })
  | Future.never => (w.nextPromise, w.alloc (PState.pending []))

/-- The call `retrieveObservations(providers)`. -/
def retrieveObservations (env : Env) (providers : Val) (w : World) : Nat × World :=
  World.spawn
    { w.log (Event.retrieveCall providers) with retrieveCalls := w.retrieveCalls + 1 }
    Origin.retrieval (env.retrieveObservations w.retrieveCalls providers)

/-- The call `insertObservations(data)`. -/
def insertObservations (env : Env) (data : Val) (w : World) : Nat × World :=
  World.spawn
    { w.log (Event.insertCall data) with insertCalls := w.insertCalls + 1 }
    Origin.insertion (env.insertObservations w.insertCalls data)

/-- The call `res.end(chunk)`. The call is logged. When the response object
takes the chunk it is finished with it and the call returns what the object
hands back; when the object refuses the chunk it stays as it is and the call
throws. -/
def resEnd (env : Env) (res : Nat) (chunk : Val) (w : World) : Ret × World :=
  match env.resEnd res (w.responses res) chunk with
  | EndResult.returns v =>
      (Ret.value v,
       { w.log (Event.resEnd res chunk) with
           responses := Function.update w.responses res ((w.responses res).finish chunk) })
  | EndResult.throws e => (Ret.throw e, w.log (Event.resEnd res chunk))

/-- Run one of the handler's function literals on its argument.
`data => insertObservations(data)` returns the collaborator's promise;
`results => res.end(results)` ends as the call of `end` ends. -/
def Callback.run (env : Env) (cb : Callback) (arg : Val) (w : World) : Ret × World :=
  match cb with
  | Callback.insertCb =>
      (Ret.promise (insertObservations env arg w).1, (insertObservations env arg w).2)
  | Callback.endCb res => resEnd env res arg w

/-- Run one microtask. A reaction registered by `.then(cb)` runs `cb` on the
fulfilment value and settles the derived promise according to how `cb` ended;
as no rejection handler was given, a rejection is passed on to the derived
promise unchanged. -/
def runJob (env : Env) (j : Job) (w : World) : World :=
  match j with
  | Job.reaction (Reaction.call cb d) (Outcome.fulfilled v) =>
      resolvePromise d (cb.run env v w).1 (cb.run env v w).2
  | Job.reaction (Reaction.call _ d) (Outcome.rejected e) =>
      settlePromise d (Outcome.rejected e) w
  | Job.reaction (Reaction.forward d) o => settlePromise d o w
  | Job.resolveThenable d q => addReaction q (Reaction.forward d) w

/-- Run microtasks, oldest first, until the queue is empty or the fuel is
used up. -/
def drain (env : Env) : Nat → World → World
  | 0, w => w
  | fuel + 1, w =>
      match w.microtasks with
      | [] => w
      | j :: js => drain env fuel (runJob env j { w with microtasks := js })

/-! ## The handler -/

/-- The expression statement of the handler,
`retrieveObservations(providers).then(...).then(...)`: its value is the
promise the second `.then` returns. -/
def promiseChain (env : Env) (providers : Val) (res : Nat) (w : World) : Nat × World :=
  let r0 := retrieveObservations env providers w
  let r1 := promiseThen r0.1 Callback.insertCb r0.2
  promiseThen r1.1 (Callback.endCb res) r1.2

/-- The exported function `(req, res) => ...`, statement for statement: the
constant `providers`, then the expression statement. The body is a block
without `return`, so the call hands back `undefined`; the promise of the
chain is dropped. -/
def importHandler (env : Env) (_req : Req) (res : Nat) (w : World) : Val × World :=
  let providers := Val.arr [env.mh]
  let chain := promiseChain env providers res w
  (Val.undefined, chain.2)

/-! ## The host -/

/-- One turn of the host's event loop: a request arrives and the handler is
invoked on it, or the I/O operation at position `k` of the in-flight list
completes. -/
inductive Turn where
  | request (req : Req) (res : Nat)
  | complete (k : Nat)

/-- Completion of the I/O operation at position `k`: its promise settles with
the operation's outcome. Nothing happens when there is no such operation. -/
def deliver (k : Nat) (w : World) : World :=
  match w.outstanding.get? k with
  | none => w
  | some pnd =>
      settlePromise pnd.promise pnd.outcome
        ({ w with outstanding := w.outstanding.eraseIdx k }.log
          (Event.settled pnd.origin pnd.outcome))

/-- One turn: the turn's own work, then every microtask it caused. -/
def runTurn (env : Env) (fuel : Nat) (w : World) (t : Turn) : World :=
  match t with
  | Turn.request req res => drain env fuel (importHandler env req res w).2
  | Turn.complete k => drain env fuel (deliver k w)

/-- A sequence of turns. -/
def run (env : Env) (fuel : Nat) (w : World) (ts : List Turn) : World :=
  ts.foldl (runTurn env fuel) w

/-- The host delivers the oldest I/O operation in flight, `n` times. -/
def hostTurns (n : Nat) : List Turn :=
  List.replicate n (Turn.complete 0)

/-- One invocation of the handler followed by `n` deliveries. -/
def invocation (req : Req) (res : Nat) (n : Nat) : List Turn :=
  Turn.request req res :: hostTurns n

/-! ## Reading a run -/

/-- The event is a call of the retrieval function. -/
def Event.isRetrieveCall : Event → Bool
  | Event.retrieveCall _ => true
  | _ => false

/-- The event is a call of the insertion function. -/
def Event.isInsertCall : Event → Bool
  | Event.insertCall _ => true
  | _ => false

/-- The event is a call of the terminal write `res.end`. -/
def Event.isResEnd : Event → Bool
  | Event.resEnd _ _ => true
  | _ => false

/-- The turn is an invocation of the handler. -/
def Turn.isRequest : Turn → Bool
  | Turn.request _ _ => true
  | Turn.complete _ => false

/-- The turn delivers the oldest I/O operation in flight. -/
def Turn.isOldest : Turn → Bool
  | Turn.complete 0 => true
  | _ => false

/-- The events logged between the world `w` and a later world `w2`. -/
def newEvents (w w2 : World) : List Event :=
  w2.trace.drop w.trace.length

/-- What a logged event does to the response objects: a call of `res.end`
finishes its response with the chunk when the response takes the chunk, and
every other event leaves the response objects alone. -/
def Event.applyTo (env : Env) (rs : Nat → Response) : Event → Nat → Response
  | Event.resEnd res chunk =>
      match env.resEnd res (rs res) chunk with
      | EndResult.returns _ => Function.update rs res ((rs res).finish chunk)
      | EndResult.throws _ => rs
  | _ => rs

/-- The response objects after the logged events, oldest first. -/
def replay (env : Env) (rs : Nat → Response) (evs : List Event) : Nat → Response :=
  evs.foldl (Event.applyTo env) rs

/-- The outcome a future will have, if it ever settles. -/
def Future.outcome? : Future → Option Outcome
  | Future.settled o => some o
  | Future.later o => some o
  | Future.never => none

/-- The sequential reading of one invocation started in `w`, as the contract
lists it: retrieval is called with the provider list; if it resolves,
insertion is called with the result; if that resolves too, `res.end` is
called with the result. A run of the handler is compared with this list. -/
def script (env : Env) (w : World) (res : Nat) : List Event :=
  Event.retrieveCall (Val.arr [env.mh]) ::
    match (env.retrieveObservations w.retrieveCalls (Val.arr [env.mh])).outcome? with
    | none => []
    | some (Outcome.rejected e) => [Event.settled Origin.retrieval (Outcome.rejected e)]
    | some (Outcome.fulfilled r) =>
        Event.settled Origin.retrieval (Outcome.fulfilled r) :: Event.insertCall r ::
          match (env.insertObservations w.insertCalls r).outcome? with
          | none => []
          | some (Outcome.rejected e) => [Event.settled Origin.insertion (Outcome.rejected e)]
          | some (Outcome.fulfilled v) =>
              [Event.settled Origin.insertion (Outcome.fulfilled v), Event.resEnd res v]

/-- From `w` to `w2` the trace grew by some events, exactly `k` of them calls
of the retrieval function and each of those with the one-element list
`[mh]`, and the response objects changed by the logged calls of `res.end` and
by nothing else. -/
def Advance (env : Env) (k : Nat) (w w2 : World) : Prop :=
  ∃ evs, w2.trace = w.trace ++ evs ∧ w2.responses = replay env w.responses evs ∧
    (∀ e ∈ evs, e.isRetrieveCall = true → e = Event.retrieveCall (Val.arr [env.mh])) ∧
    evs.countP Event.isRetrieveCall = k

/-! ## A concrete scenario -/

/-- A world in which nothing has happened yet: every response object is
fresh, with status 200 and no headers. -/
def World.fresh : World :=
  { promises := fun _ => PState.pending [], nextPromise := 0, microtasks := [],
    outstanding := [], responses := fun _ => ⟨200, [], [], false⟩, trace := [],
    retrieveCalls := 0, insertCalls := 0 }

/-- The batch `{observations: [1, 2, 3]}`. -/
def demoBatch : Val :=
  Val.obj [("observations", Val.arr [Val.num 1, Val.num 2, Val.num 3])]

/-- The insertion result `{inserted: 3}`. -/
def demoResult : Val :=
  Val.obj [("inserted", Val.num 3)]

/-- An error value. -/
def demoError : Val :=
  Val.str "provider unreachable"

/-- A request. -/
def demoReq : Req :=
  ⟨"POST", "/import", [("content-type", "application/json")], Val.null⟩

/-- A response object whose `end` takes any chunk and hands back
`undefined`. -/
def takesAnything : Nat → Response → Val → EndResult :=
  fun _ _ _ => EndResult.returns Val.undefined

/-- The error a response object that takes strings only throws for another
chunk. -/
def demoTypeError : Val :=
  Val.str "ERR_INVALID_ARG_TYPE"

/-- A response object whose `end` takes strings only, as Node's does: for any
other chunk it throws and stays as it is. -/
def takesStrings : Nat → Response → Val → EndResult
  | _, _, Val.str _ => EndResult.returns Val.undefined
  | _, _, _ => EndResult.throws demoTypeError

/-- Collaborators that both resolve, each in a later turn, and a response
that takes any chunk. -/
def demoEnv : Env :=
  { mh := Val.str "mountainhub",
    retrieveObservations := fun _ _ => Future.later (Outcome.fulfilled demoBatch),
    insertObservations := fun _ _ => Future.later (Outcome.fulfilled demoResult),
    resEnd := takesAnything }

/-- The same collaborators with a response that takes strings only. -/
def demoEnvStrings : Env :=
  { mh := Val.str "mountainhub",
    retrieveObservations := fun _ _ => Future.later (Outcome.fulfilled demoBatch),
    insertObservations := fun _ _ => Future.later (Outcome.fulfilled demoResult),
    resEnd := takesStrings }

/-- Collaborators of which retrieval rejects. -/
def demoEnvRetrievalFails : Env :=
  { mh := Val.str "mountainhub",
    retrieveObservations := fun _ _ => Future.later (Outcome.rejected demoError),
    insertObservations := fun _ _ => Future.later (Outcome.fulfilled demoResult),
    resEnd := takesStrings }

/-- Collaborators of which insertion rejects. -/
def demoEnvInsertionFails : Env :=
  { mh := Val.str "mountainhub",
    retrieveObservations := fun _ _ => Future.later (Outcome.fulfilled demoBatch),
    insertObservations := fun _ _ => Future.settled (Outcome.rejected demoError),
    resEnd := takesStrings }

/-! ## Evaluation rules on explicit worlds -/

theorem drain_of_empty (env : Env) (fuel : Nat) (w : World) (h : w.microtasks = []) :
    drain env fuel w = w := by
  cases fuel with
  | zero => rfl
  | succ k => simp [drain, h]

theorem drain_mk_nil (env : Env) (fuel : Nat) (ps : Nat → PState) (np : Nat) (os : List Pending)
    (rs : Nat → Response) (tr : List Event) (rc ic : Nat) :
    drain env fuel ⟨ps, np, [], os, rs, tr, rc, ic⟩ = ⟨ps, np, [], os, rs, tr, rc, ic⟩ :=
  drain_of_empty env fuel _ rfl

theorem drain_mk_cons (env : Env) (fuel : Nat) (ps : Nat → PState) (np : Nat) (j : Job)
    (js : List Job) (os : List Pending) (rs : Nat → Response) (tr : List Event) (rc ic : Nat) :
    drain env (fuel + 1) ⟨ps, np, j :: js, os, rs, tr, rc, ic⟩ =
      drain env fuel (runJob env j ⟨ps, np, js, os, rs, tr, rc, ic⟩) := rfl

theorem settlePromise_mk (p : Nat) (o : Outcome) (ps : Nat → PState) (np : Nat) (mt : List Job)
    (os : List Pending) (rs : Nat → Response) (tr : List Event) (rc ic : Nat) :
    settlePromise p o ⟨ps, np, mt, os, rs, tr, rc, ic⟩ =
      match ps p with
      | PState.pending l =>
          ⟨Function.update ps p (PState.settled o), np,
            mt ++ l.map (fun r => Job.reaction r o), os, rs, tr, rc, ic⟩
      | PState.settled _ => ⟨ps, np, mt, os, rs, tr, rc, ic⟩ := by
  simp only [settlePromise, World.enqueue]

theorem addReaction_mk (p : Nat) (r : Reaction) (ps : Nat → PState) (np : Nat) (mt : List Job)
    (os : List Pending) (rs : Nat → Response) (tr : List Event) (rc ic : Nat) :
    addReaction p r ⟨ps, np, mt, os, rs, tr, rc, ic⟩ =
      match ps p with
      | PState.pending l =>
          ⟨Function.update ps p (PState.pending (l ++ [r])), np, mt, os, rs, tr, rc, ic⟩
      | PState.settled o => ⟨ps, np, mt ++ [Job.reaction r o], os, rs, tr, rc, ic⟩ := by
  simp only [addReaction, World.enqueue]

theorem promiseThen_mk (p : Nat) (cb : Callback) (ps : Nat → PState) (np : Nat) (mt : List Job)
    (os : List Pending) (rs : Nat → Response) (tr : List Event) (rc ic : Nat) :
    promiseThen p cb ⟨ps, np, mt, os, rs, tr, rc, ic⟩ =
      (np, addReaction p (Reaction.call cb np)
        ⟨Function.update ps np (PState.pending []), np + 1, mt, os, rs, tr, rc, ic⟩) := rfl

theorem spawn_mk_settled (origin : Origin) (o : Outcome) (ps : Nat → PState) (np : Nat)
    (mt : List Job) (os : List Pending) (rs : Nat → Response) (tr : List Event) (rc ic : Nat) :
    World.spawn ⟨ps, np, mt, os, rs, tr, rc, ic⟩ origin (Future.settled o) =
      (np, ⟨Function.update ps np (PState.settled o), np + 1, mt, os, rs,
        tr ++ [Event.settled origin o], rc, ic⟩) := rfl

theorem spawn_mk_later (origin : Origin) (o : Outcome) (ps : Nat → PState) (np : Nat)
    (mt : List Job) (os : List Pending) (rs : Nat → Response) (tr : List Event) (rc ic : Nat) :
    World.spawn ⟨ps, np, mt, os, rs, tr, rc, ic⟩ origin (Future.later o) =
      (np, ⟨Function.update ps np (PState.pending []), np + 1, mt,
        os ++ [Pending.mk np origin o], rs, tr, rc, ic⟩) := rfl

theorem spawn_mk_never (origin : Origin) (ps : Nat → PState) (np : Nat)
    (mt : List Job) (os : List Pending) (rs : Nat → Response) (tr : List Event) (rc ic : Nat) :
    World.spawn ⟨ps, np, mt, os, rs, tr, rc, ic⟩ origin Future.never =
      (np, ⟨Function.update ps np (PState.pending []), np + 1, mt, os, rs, tr, rc, ic⟩) := rfl

theorem retrieveObservations_mk (env : Env) (providers : Val) (ps : Nat → PState) (np : Nat)
    (mt : List Job) (os : List Pending) (rs : Nat → Response) (tr : List Event) (rc ic : Nat) :
    retrieveObservations env providers ⟨ps, np, mt, os, rs, tr, rc, ic⟩ =
      World.spawn ⟨ps, np, mt, os, rs, tr ++ [Event.retrieveCall providers], rc + 1, ic⟩
        Origin.retrieval (env.retrieveObservations rc providers) := rfl

theorem insertObservations_mk (env : Env) (data : Val) (ps : Nat → PState) (np : Nat)
    (mt : List Job) (os : List Pending) (rs : Nat → Response) (tr : List Event) (rc ic : Nat) :
    insertObservations env data ⟨ps, np, mt, os, rs, tr, rc, ic⟩ =
      World.spawn ⟨ps, np, mt, os, rs, tr ++ [Event.insertCall data], rc, ic + 1⟩
        Origin.insertion (env.insertObservations ic data) := rfl

theorem resEnd_mk (env : Env) (res : Nat) (chunk : Val) (ps : Nat → PState) (np : Nat)
    (mt : List Job) (os : List Pending) (rs : Nat → Response) (tr : List Event) (rc ic : Nat) :
    resEnd env res chunk ⟨ps, np, mt, os, rs, tr, rc, ic⟩ =
      match env.resEnd res (rs res) chunk with
      | EndResult.returns v =>
          (Ret.value v, ⟨ps, np, mt, os, Function.update rs res ((rs res).finish chunk),
            tr ++ [Event.resEnd res chunk], rc, ic⟩)
      | EndResult.throws e =>
          (Ret.throw e, ⟨ps, np, mt, os, rs, tr ++ [Event.resEnd res chunk], rc, ic⟩) := by
  simp only [resEnd, World.log]

theorem resolvePromise_value (d : Nat) (v : Val) (w : World) :
    resolvePromise d (Ret.value v) w = settlePromise d (Outcome.fulfilled v) w := rfl

theorem resolvePromise_throw (d : Nat) (e : Val) (w : World) :
    resolvePromise d (Ret.throw e) w = settlePromise d (Outcome.rejected e) w := rfl

theorem runJob_call_fulfilled_insertCb (env : Env) (d : Nat) (v : Val) (w : World) :
    runJob env (Job.reaction (Reaction.call Callback.insertCb d) (Outcome.fulfilled v)) w =
      World.enqueue (insertObservations env v w).2
        [Job.resolveThenable d (insertObservations env v w).1] := rfl

theorem runJob_call_fulfilled_endCb (env : Env) (res d : Nat) (v : Val) (w : World) :
    runJob env (Job.reaction (Reaction.call (Callback.endCb res) d) (Outcome.fulfilled v)) w =
      resolvePromise d (resEnd env res v w).1 (resEnd env res v w).2 := rfl

theorem runJob_call_rejected (env : Env) (cb : Callback) (d : Nat) (e : Val) (w : World) :
    runJob env (Job.reaction (Reaction.call cb d) (Outcome.rejected e)) w =
      settlePromise d (Outcome.rejected e) w := rfl

theorem runJob_forward (env : Env) (d : Nat) (o : Outcome) (w : World) :
    runJob env (Job.reaction (Reaction.forward d) o) w = settlePromise d o w := by
  cases o <;> rfl

theorem runJob_resolveThenable (env : Env) (d q : Nat) (w : World) :
    runJob env (Job.resolveThenable d q) w = addReaction q (Reaction.forward d) w := rfl

theorem enqueue_mk (js : List Job) (ps : Nat → PState) (np : Nat)
    (mt : List Job) (os : List Pending) (rs : Nat → Response) (tr : List Event) (rc ic : Nat) :
    World.enqueue ⟨ps, np, mt, os, rs, tr, rc, ic⟩ js = ⟨ps, np, mt ++ js, os, rs, tr, rc, ic⟩ := rfl

theorem importHandler_mk (env : Env) (req : Req) (res : Nat) (w : World) :
    (importHandler env req res w).2 =
      (promiseThen
        (promiseThen (retrieveObservations env (Val.arr [env.mh]) w).1 Callback.insertCb
          (retrieveObservations env (Val.arr [env.mh]) w).2).1
        (Callback.endCb res)
        (promiseThen (retrieveObservations env (Val.arr [env.mh]) w).1 Callback.insertCb
          (retrieveObservations env (Val.arr [env.mh]) w).2).2).2 := rfl

theorem deliver_mk_nil (k : Nat) (ps : Nat → PState) (np : Nat)
    (mt : List Job) (rs : Nat → Response) (tr : List Event) (rc ic : Nat) :
    deliver k ⟨ps, np, mt, [], rs, tr, rc, ic⟩ = ⟨ps, np, mt, [], rs, tr, rc, ic⟩ := by
  simp [deliver]

theorem deliver_mk_zero (pnd : Pending) (ps : Nat → PState) (np : Nat)
    (mt : List Job) (os : List Pending) (rs : Nat → Response) (tr : List Event) (rc ic : Nat) :
    deliver 0 ⟨ps, np, mt, pnd :: os, rs, tr, rc, ic⟩ =
      settlePromise pnd.promise pnd.outcome
        ⟨ps, np, mt, os, rs, tr ++ [Event.settled pnd.origin pnd.outcome], rc, ic⟩ := by
  simp [deliver, World.log]

theorem addReaction_nextPromise (p : Nat) (r : Reaction) (w : World) :
    (addReaction p r w).nextPromise = w.nextPromise := by
  unfold addReaction
  split <;> rfl

theorem promiseThen_nextPromise (p : Nat) (cb : Callback) (w : World) :
    (promiseThen p cb w).2.nextPromise = w.nextPromise + 1 :=
  addReaction_nextPromise _ _ _

theorem retrieveObservations_nextPromise (env : Env) (providers : Val) (w : World) :
    (retrieveObservations env providers w).2.nextPromise = w.nextPromise + 1 := by
  unfold retrieveObservations
  cases env.retrieveObservations w.retrieveCalls providers <;> rfl

theorem promiseChain_fst (env : Env) (providers : Val) (res : Nat) (w : World) :
    (promiseChain env providers res w).1 = w.nextPromise + 2 := by
  show (promiseThen _ Callback.insertCb (retrieveObservations env providers w).2).2.nextPromise =
    w.nextPromise + 2
  rw [promiseThen_nextPromise, retrieveObservations_nextPromise]

theorem runTurn_request (env : Env) (fuel : Nat) (w : World) (req : Req) (res : Nat) :
    runTurn env fuel w (Turn.request req res) = drain env fuel (importHandler env req res w).2 :=
  rfl

theorem runTurn_complete (env : Env) (fuel : Nat) (w : World) (k : Nat) :
    runTurn env fuel w (Turn.complete k) = drain env fuel (deliver k w) := rfl

/-! ## What every step of the machine preserves -/

theorem advance_of_same (env : Env) (w w2 : World) (ht : w2.trace = w.trace)
    (hr : w2.responses = w.responses) : Advance env 0 w w2 :=
  ⟨[], by simp [ht], by simp [replay, hr], by simp, by simp⟩

theorem advance_refl (env : Env) (w : World) : Advance env 0 w w :=
  advance_of_same env w w rfl rfl

theorem advance_trans {env : Env} {a b : Nat} {w w1 w2 : World}
    (h1 : Advance env a w w1) (h2 : Advance env b w1 w2) : Advance env (a + b) w w2 := by
  obtain ⟨e1, t1, r1, p1, c1⟩ := h1
  obtain ⟨e2, t2, r2, p2, c2⟩ := h2
  refine ⟨e1 ++ e2, ?_, ?_, ?_, ?_⟩
  · rw [t2, t1, List.append_assoc]
  · rw [r2, r1]
    simp [replay, List.foldl_append]
  · intro e he
    rcases List.mem_append.mp he with h | h
    · exact p1 e h
    · exact p2 e h
  · simp [List.countP_append, c1, c2]

theorem advance_zero_trans {env : Env} {w w1 w2 : World}
    (h1 : Advance env 0 w w1) (h2 : Advance env 0 w1 w2) : Advance env 0 w w2 :=
  advance_trans h1 h2

theorem advance_event (env : Env) (w w2 : World) (e : Event) (he : e.isRetrieveCall = false)
    (ht : w2.trace = w.trace ++ [e]) (hr : w2.responses = e.applyTo env w.responses) :
    Advance env 0 w w2 :=
  ⟨[e], ht, by simp [replay, hr], by simp [he], by simp [he]⟩

theorem advance_settlePromise (env : Env) (p : Nat) (o : Outcome) (w : World) :
    Advance env 0 w (settlePromise p o w) := by
  unfold settlePromise
  split <;> exact advance_of_same env _ _ rfl rfl

theorem advance_addReaction (env : Env) (p : Nat) (r : Reaction) (w : World) :
    Advance env 0 w (addReaction p r w) := by
  unfold addReaction
  split <;> exact advance_of_same env _ _ rfl rfl

theorem advance_promiseThen (env : Env) (p : Nat) (cb : Callback) (w : World) :
    Advance env 0 w (promiseThen p cb w).2 :=
  advance_zero_trans (advance_of_same env w (w.alloc (PState.pending [])) rfl rfl)
    (advance_addReaction env _ _ _)

theorem advance_spawn (env : Env) (w : World) (origin : Origin) (f : Future) :
    Advance env 0 w (w.spawn origin f).2 := by
  cases f with
  | settled o => exact advance_event env _ _ (Event.settled origin o) rfl rfl rfl
  | later o => exact advance_of_same env _ _ rfl rfl
  | never => exact advance_of_same env _ _ rfl rfl

theorem advance_insertObservations (env : Env) (data : Val) (w : World) :
    Advance env 0 w (insertObservations env data w).2 :=
  advance_zero_trans
    (advance_event env w
      { w.log (Event.insertCall data) with insertCalls := w.insertCalls + 1 }
      (Event.insertCall data) rfl rfl rfl)
    (advance_spawn env _ _ _)

theorem advance_retrieveObservations (env : Env) (w : World) :
    Advance env 1 w (retrieveObservations env (Val.arr [env.mh]) w).2 := by
  have h1 : Advance env 1 w
      { w.log (Event.retrieveCall (Val.arr [env.mh])) with retrieveCalls := w.retrieveCalls + 1 } :=
    ⟨[Event.retrieveCall (Val.arr [env.mh])], rfl, rfl, by simp, by simp [Event.isRetrieveCall]⟩
  exact advance_trans h1 (advance_spawn env _ _ _)

theorem advance_resEnd (env : Env) (res : Nat) (chunk : Val) (w : World) :
    Advance env 0 w (resEnd env res chunk w).2 := by
  refine advance_event env _ _ (Event.resEnd res chunk) rfl ?_ ?_
  · unfold resEnd
    split <;> rfl
  · simp only [resEnd, Event.applyTo]
    cases env.resEnd res (w.responses res) chunk <;> rfl

theorem advance_callback (env : Env) (cb : Callback) (arg : Val) (w : World) :
    Advance env 0 w (cb.run env arg w).2 := by
  cases cb with
  | insertCb => exact advance_insertObservations env arg w
  | endCb res => exact advance_resEnd env res arg w

theorem advance_resolvePromise (env : Env) (d : Nat) (x : Ret) (w : World) :
    Advance env 0 w (resolvePromise d x w) := by
  cases x with
  | value v => exact advance_settlePromise env d _ w
  | promise q => exact advance_of_same env _ _ rfl rfl
  | throw e => exact advance_settlePromise env d _ w

theorem advance_runJob (env : Env) (j : Job) (w : World) : Advance env 0 w (runJob env j w) := by
  rcases j with ⟨(⟨cb, d⟩ | d), (v | e)⟩ | ⟨d, q⟩
  · exact advance_zero_trans (advance_callback env cb v w) (advance_resolvePromise env _ _ _)
  · exact advance_settlePromise env d _ w
  · exact advance_settlePromise env d _ w
  · exact advance_settlePromise env d _ w
  · exact advance_addReaction env q _ w

theorem advance_drain (env : Env) (fuel : Nat) (w : World) : Advance env 0 w (drain env fuel w) := by
  induction fuel generalizing w with
  | zero => exact advance_refl env w
  | succ k ih =>
      unfold drain
      split
      · exact advance_refl env w
      · next j js _ =>
        exact advance_zero_trans
          (advance_zero_trans (advance_of_same env w { w with microtasks := js } rfl rfl)
            (advance_runJob env j _))
          (ih _)

theorem advance_deliver (env : Env) (k : Nat) (w : World) : Advance env 0 w (deliver k w) := by
  unfold deliver
  split
  · exact advance_refl env w
  · exact advance_zero_trans
      (advance_event env w (World.log { w with outstanding := w.outstanding.eraseIdx k } _)
        (Event.settled _ _) rfl rfl rfl)
      (advance_settlePromise env _ _ _)

theorem advance_importHandler (env : Env) (req : Req) (res : Nat) (w : World) :
    Advance env 1 w (importHandler env req res w).2 :=
  advance_trans (advance_retrieveObservations env w)
    (advance_zero_trans (advance_promiseThen env _ _ _) (advance_promiseThen env _ _ _))

theorem advance_runTurn (env : Env) (fuel : Nat) (w : World) (t : Turn) :
    Advance env (if t.isRequest then 1 else 0) w (runTurn env fuel w t) := by
  cases t with
  | request req res =>
      exact advance_trans (advance_importHandler env req res w) (advance_drain env fuel _)
  | complete k =>
      exact advance_zero_trans (advance_deliver env k w) (advance_drain env fuel _)

theorem advance_run (env : Env) (fuel : Nat) (w : World) (ts : List Turn) :
    Advance env (ts.countP Turn.isRequest) w (run env fuel w ts) := by
  induction ts generalizing w with
  | nil => exact advance_refl env w
  | cons t ts ih =>
      have h := advance_trans (advance_runTurn env fuel w t) (ih (runTurn env fuel w t))
      have hc : (t :: ts).countP Turn.isRequest =
          (if t.isRequest then 1 else 0) + ts.countP Turn.isRequest := by
        rw [List.countP_cons, Nat.add_comm]
      rw [hc]
      exact h

theorem newEvents_of_trace {w w2 : World} {evs : List Event} (h : w2.trace = w.trace ++ evs) :
    newEvents w w2 = evs := by
  simp [newEvents, h]

theorem replay_frame (env : Env) (rs : Nat → Response) (evs : List Event) (i : Nat) :
    ((replay env rs evs) i).statusCode = (rs i).statusCode ∧
      ((replay env rs evs) i).headers = (rs i).headers := by
  induction evs generalizing rs with
  | nil => exact ⟨rfl, rfl⟩
  | cons e evs ih =>
      have h := ih (e.applyTo env rs)
      have he : ((e.applyTo env rs) i).statusCode = (rs i).statusCode ∧
          ((e.applyTo env rs) i).headers = (rs i).headers := by
        cases e with
        | resEnd res chunk =>
            simp only [Event.applyTo]
            cases env.resEnd res (rs res) chunk with
            | returns v =>
                by_cases hi : i = res
                · subst hi
                  simp [Response.finish]
                · simp [Function.update_noteq hi]
            | throws e => exact ⟨rfl, rfl⟩
        | retrieveCall _ => exact ⟨rfl, rfl⟩
        | insertCall _ => exact ⟨rfl, rfl⟩
        | settled _ _ => exact ⟨rfl, rfl⟩
      exact ⟨h.1.trans he.1, h.2.trans he.2⟩

/-! ## One invocation, turn by turn -/

theorem foldl_complete_mk (env : Env) (fuel n : Nat) (ps : Nat → PState) (np : Nat)
    (rs : Nat → Response) (tr : List Event) (rc ic : Nat) :
    List.foldl (runTurn env fuel) ⟨ps, np, [], [], rs, tr, rc, ic⟩
        (List.replicate n (Turn.complete 0)) =
      ⟨ps, np, [], [], rs, tr, rc, ic⟩ := by
  induction n with
  | zero => rfl
  | succ k ih =>
      rw [List.replicate_succ, List.foldl_cons, runTurn_complete, deliver_mk_nil, drain_mk_nil, ih]

theorem invocation_prefix (env : Env) (w : World) (req : Req) (res : Nat) (fuel n : Nat)
    (hq : w.quiescent) (hf : 4 ≤ fuel) :
    ∃ m, 1 ≤ m ∧ (1 ≤ n → 3 ≤ m ∨ (script env w res).length ≤ m) ∧
      (2 ≤ n → (script env w res).length ≤ m) ∧
      (run env fuel w (invocation req res n)).trace = w.trace ++ (script env w res).take m := by
  obtain ⟨k, rfl⟩ : ∃ k, fuel = k + 4 := ⟨fuel - 4, by omega⟩
  obtain ⟨ps, np, mt, os, rs, tr, rc, ic⟩ := w
  obtain ⟨hq1, hq2⟩ := hq
  simp only at hq1 hq2
  subst hq1 hq2
  simp only [script]
  generalize hr : env.retrieveObservations rc (Val.arr [env.mh]) = fr
  rcases fr with (R | E) | (R | E) | _
  case settled.rejected | later.rejected | never =>
    rcases n with _ | _ | n <;>
    simp (disch := omega) only [run, invocation, hostTurns, List.replicate_succ, List.foldl_cons,
      List.foldl_nil, List.replicate_zero, runTurn_request, runTurn_complete, importHandler_mk,
      retrieveObservations_mk, hr, spawn_mk_later, spawn_mk_settled, spawn_mk_never,
      promiseThen_mk, addReaction_mk, settlePromise_mk, Function.update_same,
      Function.update_noteq, drain_mk_nil, drain_mk_cons, deliver_mk_nil, deliver_mk_zero,
      List.nil_append, List.cons_append, List.map_cons, List.map_nil, List.append_assoc,
      runJob_call_rejected, foldl_complete_mk, Future.outcome?] <;>
    first
      | exact ⟨2, by decide, by simp, by simp, rfl⟩
      | exact ⟨1, by decide, by simp, by simp, rfl⟩
  all_goals
    generalize hi : env.insertObservations ic R = fi
    rcases fi with (V | E) | (V | E) | _
    case settled.fulfilled | later.fulfilled =>
      rcases hend : env.resEnd res (rs res) V with ret | err <;>
      rcases n with _ | _ | n <;>
      simp (disch := omega) only [run, invocation, hostTurns, List.replicate_succ, List.foldl_cons,
      List.foldl_nil, List.replicate_zero, runTurn_request, runTurn_complete, importHandler_mk,
      retrieveObservations_mk, hr, hi, hend, spawn_mk_later, spawn_mk_settled, spawn_mk_never,
      promiseThen_mk, addReaction_mk, settlePromise_mk, Function.update_same,
      Function.update_noteq, drain_mk_nil, drain_mk_cons, deliver_mk_nil, deliver_mk_zero,
      List.nil_append, List.cons_append, List.map_cons, List.map_nil, List.append_assoc,
      runJob_call_fulfilled_insertCb, runJob_call_fulfilled_endCb, runJob_call_rejected,
      runJob_forward, runJob_resolveThenable, enqueue_mk, insertObservations_mk, resEnd_mk,
      resolvePromise_value, resolvePromise_throw, foldl_complete_mk, Future.outcome?] <;>
      first
        | exact ⟨5, by decide, by simp, by simp, rfl⟩
        | exact ⟨3, by decide, by simp, by simp, rfl⟩
        | exact ⟨1, by decide, by simp, by simp, rfl⟩
    all_goals
      rcases n with _ | _ | n <;>
      simp (disch := omega) only [run, invocation, hostTurns, List.replicate_succ, List.foldl_cons,
      List.foldl_nil, List.replicate_zero, runTurn_request, runTurn_complete, importHandler_mk,
      retrieveObservations_mk, hr, hi, spawn_mk_later, spawn_mk_settled, spawn_mk_never,
      promiseThen_mk, addReaction_mk, settlePromise_mk, Function.update_same,
      Function.update_noteq, drain_mk_nil, drain_mk_cons, deliver_mk_nil, deliver_mk_zero,
      List.nil_append, List.cons_append, List.map_cons, List.map_nil, List.append_assoc,
      runJob_call_fulfilled_insertCb, runJob_call_fulfilled_endCb, runJob_call_rejected,
      runJob_forward, runJob_resolveThenable, enqueue_mk, insertObservations_mk, resEnd_mk,
      foldl_complete_mk, Future.outcome?] <;>
      first
        | exact ⟨5, by decide, by simp, by simp, rfl⟩
        | exact ⟨3, by decide, by simp, by simp, rfl⟩
        | exact ⟨1, by decide, by simp, by simp, rfl⟩

theorem chain_rejected_retrieval (env : Env) (w : World) (req : Req) (res : Nat) (E : Val)
    (fuel n : Nat) (hq : w.quiescent) (hf : 4 ≤ fuel) (hn : 1 ≤ n)
    (hr : (env.retrieveObservations w.retrieveCalls (Val.arr [env.mh])).rejectsWith E) :
    (run env fuel w (invocation req res n)).promises (w.nextPromise + 2) =
        PState.settled (Outcome.rejected E) ∧
      (run env fuel w (invocation req res n)).quiescent := by
  obtain ⟨k, rfl⟩ : ∃ k, fuel = k + 4 := ⟨fuel - 4, by omega⟩
  obtain ⟨n, rfl⟩ : ∃ j, n = j + 1 := ⟨n - 1, by omega⟩
  obtain ⟨ps, np, mt, os, rs, tr, rc, ic⟩ := w
  obtain ⟨hq1, hq2⟩ := hq
  simp only at hq1 hq2 hr
  subst hq1 hq2
  rcases hr with hr | hr <;>
  simp (disch := omega) only [run, invocation, hostTurns, List.replicate_succ, List.foldl_cons,
    List.foldl_nil, List.replicate_zero, runTurn_request, runTurn_complete, importHandler_mk,
    retrieveObservations_mk, hr, spawn_mk_later, spawn_mk_settled, spawn_mk_never,
    promiseThen_mk, addReaction_mk, settlePromise_mk, Function.update_same,
    Function.update_noteq, drain_mk_nil, drain_mk_cons, deliver_mk_nil, deliver_mk_zero,
    List.nil_append, List.cons_append, List.map_cons, List.map_nil, List.append_assoc,
    runJob_call_rejected, foldl_complete_mk, World.quiescent, and_self]

theorem chain_rejected_insertion (env : Env) (w : World) (req : Req) (res : Nat) (R E : Val)
    (fuel n : Nat) (hq : w.quiescent) (hf : 4 ≤ fuel) (hn : 2 ≤ n)
    (hr : (env.retrieveObservations w.retrieveCalls (Val.arr [env.mh])).resolvesWith R)
    (hi : (env.insertObservations w.insertCalls R).rejectsWith E) :
    (run env fuel w (invocation req res n)).promises (w.nextPromise + 2) =
        PState.settled (Outcome.rejected E) ∧
      (run env fuel w (invocation req res n)).quiescent := by
  obtain ⟨k, rfl⟩ : ∃ k, fuel = k + 4 := ⟨fuel - 4, by omega⟩
  obtain ⟨n, rfl⟩ : ∃ j, n = j + 2 := ⟨n - 2, by omega⟩
  obtain ⟨ps, np, mt, os, rs, tr, rc, ic⟩ := w
  obtain ⟨hq1, hq2⟩ := hq
  simp only at hq1 hq2 hr hi
  subst hq1 hq2
  rcases hr with hr | hr <;> rcases hi with hi | hi <;>
  simp (disch := omega) only [run, invocation, hostTurns, List.replicate_succ, List.foldl_cons,
    List.foldl_nil, List.replicate_zero, runTurn_request, runTurn_complete, importHandler_mk,
    retrieveObservations_mk, hr, hi, spawn_mk_later, spawn_mk_settled, spawn_mk_never,
    promiseThen_mk, addReaction_mk, settlePromise_mk, Function.update_same,
    Function.update_noteq, drain_mk_nil, drain_mk_cons, deliver_mk_nil, deliver_mk_zero,
    List.nil_append, List.cons_append, List.map_cons, List.map_nil, List.append_assoc,
    runJob_call_fulfilled_insertCb, runJob_call_fulfilled_endCb, runJob_call_rejected,
    runJob_forward, runJob_resolveThenable, enqueue_mk, insertObservations_mk, resEnd_mk,
    foldl_complete_mk, World.quiescent, and_self]

theorem chain_written (env : Env) (w : World) (req : Req) (res : Nat) (R V x : Val)
    (fuel n : Nat) (hq : w.quiescent) (hf : 4 ≤ fuel) (hn : 2 ≤ n)
    (hr : (env.retrieveObservations w.retrieveCalls (Val.arr [env.mh])).resolvesWith R)
    (hi : (env.insertObservations w.insertCalls R).resolvesWith V)
    (hend : env.resEnd res (w.responses res) V = EndResult.returns x) :
    (run env fuel w (invocation req res n)).promises (w.nextPromise + 2) =
        PState.settled (Outcome.fulfilled x) ∧
      (run env fuel w (invocation req res n)).quiescent := by
  obtain ⟨k, rfl⟩ : ∃ k, fuel = k + 4 := ⟨fuel - 4, by omega⟩
  obtain ⟨n, rfl⟩ : ∃ j, n = j + 2 := ⟨n - 2, by omega⟩
  obtain ⟨ps, np, mt, os, rs, tr, rc, ic⟩ := w
  obtain ⟨hq1, hq2⟩ := hq
  simp only at hq1 hq2 hr hi hend
  subst hq1 hq2
  rcases hr with hr | hr <;> rcases hi with hi | hi <;>
  simp (disch := omega) only [run, invocation, hostTurns, List.replicate_succ, List.foldl_cons,
    List.foldl_nil, List.replicate_zero, runTurn_request, runTurn_complete, importHandler_mk,
    retrieveObservations_mk, hr, hi, hend, spawn_mk_later, spawn_mk_settled, spawn_mk_never,
    promiseThen_mk, addReaction_mk, settlePromise_mk, Function.update_same,
    Function.update_noteq, drain_mk_nil, drain_mk_cons, deliver_mk_nil, deliver_mk_zero,
    List.nil_append, List.cons_append, List.map_cons, List.map_nil, List.append_assoc,
    runJob_call_fulfilled_insertCb, runJob_call_fulfilled_endCb, runJob_call_rejected,
    runJob_forward, runJob_resolveThenable, enqueue_mk, insertObservations_mk, resEnd_mk,
    resolvePromise_value, resolvePromise_throw, foldl_complete_mk, World.quiescent, and_self]

theorem chain_refused (env : Env) (w : World) (req : Req) (res : Nat) (R V x : Val)
    (fuel n : Nat) (hq : w.quiescent) (hf : 4 ≤ fuel) (hn : 2 ≤ n)
    (hr : (env.retrieveObservations w.retrieveCalls (Val.arr [env.mh])).resolvesWith R)
    (hi : (env.insertObservations w.insertCalls R).resolvesWith V)
    (hend : env.resEnd res (w.responses res) V = EndResult.throws x) :
    (run env fuel w (invocation req res n)).promises (w.nextPromise + 2) =
        PState.settled (Outcome.rejected x) ∧
      (run env fuel w (invocation req res n)).quiescent := by
  obtain ⟨k, rfl⟩ : ∃ k, fuel = k + 4 := ⟨fuel - 4, by omega⟩
  obtain ⟨n, rfl⟩ : ∃ j, n = j + 2 := ⟨n - 2, by omega⟩
  obtain ⟨ps, np, mt, os, rs, tr, rc, ic⟩ := w
  obtain ⟨hq1, hq2⟩ := hq
  simp only at hq1 hq2 hr hi hend
  subst hq1 hq2
  rcases hr with hr | hr <;> rcases hi with hi | hi <;>
  simp (disch := omega) only [run, invocation, hostTurns, List.replicate_succ, List.foldl_cons,
    List.foldl_nil, List.replicate_zero, runTurn_request, runTurn_complete, importHandler_mk,
    retrieveObservations_mk, hr, hi, hend, spawn_mk_later, spawn_mk_settled, spawn_mk_never,
    promiseThen_mk, addReaction_mk, settlePromise_mk, Function.update_same,
    Function.update_noteq, drain_mk_nil, drain_mk_cons, deliver_mk_nil, deliver_mk_zero,
    List.nil_append, List.cons_append, List.map_cons, List.map_nil, List.append_assoc,
    runJob_call_fulfilled_insertCb, runJob_call_fulfilled_endCb, runJob_call_rejected,
    runJob_forward, runJob_resolveThenable, enqueue_mk, insertObservations_mk, resEnd_mk,
    resolvePromise_value, resolvePromise_throw, foldl_complete_mk, World.quiescent, and_self]

theorem invocation_settled (env : Env) (w : World) (req : Req) (res : Nat) (fuel n : Nat)
    (hq : w.quiescent) (hf : 4 ≤ fuel) :
    (run env fuel w (invocation req res n)).microtasks = [] ∧
      (run env fuel w (invocation req res n)).outstanding.length ≤ 1 := by
  obtain ⟨k, rfl⟩ : ∃ k, fuel = k + 4 := ⟨fuel - 4, by omega⟩
  obtain ⟨ps, np, mt, os, rs, tr, rc, ic⟩ := w
  obtain ⟨hq1, hq2⟩ := hq
  simp only at hq1 hq2
  subst hq1 hq2
  generalize hr : env.retrieveObservations rc (Val.arr [env.mh]) = fr
  rcases fr with (R | E) | (R | E) | _
  case settled.rejected | later.rejected | never =>
    rcases n with _ | _ | n <;>
    simp (disch := omega) only [run, invocation, hostTurns, List.replicate_succ, List.foldl_cons,
      List.foldl_nil, List.replicate_zero, runTurn_request, runTurn_complete, importHandler_mk,
      retrieveObservations_mk, hr, spawn_mk_later, spawn_mk_settled, spawn_mk_never,
      promiseThen_mk, addReaction_mk, settlePromise_mk, Function.update_same,
      Function.update_noteq, drain_mk_nil, drain_mk_cons, deliver_mk_nil, deliver_mk_zero,
      List.nil_append, List.cons_append, List.map_cons, List.map_nil, List.append_assoc,
      runJob_call_rejected, foldl_complete_mk] <;>
    simp
  all_goals
    generalize hi : env.insertObservations ic R = fi
    rcases fi with (V | E) | (V | E) | _
    case settled.fulfilled | later.fulfilled =>
      rcases hend : env.resEnd res (rs res) V with ret | err <;>
      rcases n with _ | _ | n <;>
      simp (disch := omega) only [run, invocation, hostTurns, List.replicate_succ, List.foldl_cons,
      List.foldl_nil, List.replicate_zero, runTurn_request, runTurn_complete, importHandler_mk,
      retrieveObservations_mk, hr, hi, hend, spawn_mk_later, spawn_mk_settled, spawn_mk_never,
      promiseThen_mk, addReaction_mk, settlePromise_mk, Function.update_same,
      Function.update_noteq, drain_mk_nil, drain_mk_cons, deliver_mk_nil, deliver_mk_zero,
      List.nil_append, List.cons_append, List.map_cons, List.map_nil, List.append_assoc,
      runJob_call_fulfilled_insertCb, runJob_call_fulfilled_endCb, runJob_call_rejected,
      runJob_forward, runJob_resolveThenable, enqueue_mk, insertObservations_mk, resEnd_mk,
      resolvePromise_value, resolvePromise_throw, foldl_complete_mk] <;>
      simp
    all_goals
      rcases n with _ | _ | n <;>
      simp (disch := omega) only [run, invocation, hostTurns, List.replicate_succ, List.foldl_cons,
      List.foldl_nil, List.replicate_zero, runTurn_request, runTurn_complete, importHandler_mk,
      retrieveObservations_mk, hr, hi, spawn_mk_later, spawn_mk_settled, spawn_mk_never,
      promiseThen_mk, addReaction_mk, settlePromise_mk, Function.update_same,
      Function.update_noteq, drain_mk_nil, drain_mk_cons, deliver_mk_nil, deliver_mk_zero,
      List.nil_append, List.cons_append, List.map_cons, List.map_nil, List.append_assoc,
      runJob_call_fulfilled_insertCb, runJob_call_fulfilled_endCb, runJob_call_rejected,
      runJob_forward, runJob_resolveThenable, enqueue_mk, insertObservations_mk, resEnd_mk,
      foldl_complete_mk] <;>
      simp

theorem invocation_succ (env : Env) (fuel : Nat) (w : World) (req : Req) (res n : Nat) :
    run env fuel w (invocation req res (n + 1)) =
      runTurn env fuel (run env fuel w (invocation req res n)) (Turn.complete 0) := by
  simp only [run, invocation, hostTurns, List.replicate_succ', ← List.cons_append,
    List.foldl_append, List.foldl_cons, List.foldl_nil]

theorem runTurn_complete_beyond (env : Env) (fuel : Nat) (w : World) (k : Nat)
    (hm : w.microtasks = []) (ho : w.outstanding.length ≤ 1) :
    runTurn env fuel w (Turn.complete (k + 1)) = w := by
  have hnone : w.outstanding.get? (k + 1) = none := by
    rw [List.get?_eq_none]
    omega
  simp only [runTurn, deliver, hnone]
  exact drain_of_empty env fuel w hm

/-- After the request, any sequence of deliveries gives the same run as
delivering the oldest operation in flight as many times as the sequence asks
for it: an invocation has at most one operation in flight, so a delivery at
another position finds nothing. -/
theorem deliveries_in_order (env : Env) (w : World) (req : Req) (res : Nat) (fuel : Nat)
    (hq : w.quiescent) (hf : 4 ≤ fuel) (ts : List Turn) (hts : ∀ t ∈ ts, t.isRequest = false) :
    run env fuel w (Turn.request req res :: ts) =
      run env fuel w (invocation req res (ts.countP Turn.isOldest)) := by
  have key : ∀ (us : List Turn) (j : Nat), (∀ t ∈ us, t.isRequest = false) →
      run env fuel (run env fuel w (invocation req res j)) us =
        run env fuel w (invocation req res (j + us.countP Turn.isOldest)) := by
    intro us
    induction us with
    | nil => intro j _; rfl
    | cons t us ih =>
        intro j hus
        have hrest : ∀ u ∈ us, u.isRequest = false := fun u hu => hus u (List.mem_cons_of_mem t hu)
        rcases t with ⟨rq, rs⟩ | k
        · have := hus _ (List.mem_cons_self _ _)
          simp [Turn.isRequest] at this
        · rcases k with _ | k
          · show run env fuel (runTurn env fuel (run env fuel w (invocation req res j))
                (Turn.complete 0)) us = _
            rw [← invocation_succ, ih (j + 1) hrest]
            simp [List.countP_cons, Turn.isOldest]
            congr 2
            omega
          · show run env fuel (runTurn env fuel (run env fuel w (invocation req res j))
                (Turn.complete (k + 1))) us = _
            obtain ⟨hm, ho⟩ := invocation_settled env w req res fuel j hq hf
            rw [runTurn_complete_beyond env fuel _ k hm ho, ih j hrest]
            simp [List.countP_cons, Turn.isOldest]
  have h0 := key ts 0 hts
  simpa [invocation, hostTurns, run] using h0

/-! ## The run of one invocation against its sequential reading -/

theorem invocation_events (env : Env) (w : World) (req : Req) (res : Nat) (fuel n : Nat)
    (hq : w.quiescent) (hf : 4 ≤ fuel) :
    ∃ m, 1 ≤ m ∧ (1 ≤ n → 3 ≤ m ∨ (script env w res).length ≤ m) ∧
      (2 ≤ n → (script env w res).length ≤ m) ∧
      newEvents w (run env fuel w (invocation req res n)) = (script env w res).take m ∧
      (run env fuel w (invocation req res n)).responses =
        replay env w.responses ((script env w res).take m) := by
  obtain ⟨m, h1, h2, h3, ht⟩ := invocation_prefix env w req res fuel n hq hf
  obtain ⟨evs, et, er, _, _⟩ := advance_run env fuel w (invocation req res n)
  have he : evs = (script env w res).take m := List.append_cancel_left (et.symm.trans ht)
  exact ⟨m, h1, h2, h3, newEvents_of_trace ht, by rw [er, he]⟩

theorem invocation_complete (env : Env) (w : World) (req : Req) (res : Nat) (fuel n : Nat)
    (hq : w.quiescent) (hf : 4 ≤ fuel) (hn : 2 ≤ n) :
    newEvents w (run env fuel w (invocation req res n)) = script env w res ∧
      (run env fuel w (invocation req res n)).responses =
        replay env w.responses (script env w res) := by
  obtain ⟨m, _, _, h3, he, hr⟩ := invocation_events env w req res fuel n hq hf
  rw [List.take_of_length_le (h3 hn)] at he hr
  exact ⟨he, hr⟩

theorem script_cases (env : Env) (w : World) (res : Nat) :
    script env w res = [Event.retrieveCall (Val.arr [env.mh])] ∨
    (∃ e, script env w res = [Event.retrieveCall (Val.arr [env.mh]),
        Event.settled Origin.retrieval (Outcome.rejected e)]) ∨
    (∃ r, script env w res = [Event.retrieveCall (Val.arr [env.mh]),
        Event.settled Origin.retrieval (Outcome.fulfilled r), Event.insertCall r]) ∨
    (∃ r e, script env w res = [Event.retrieveCall (Val.arr [env.mh]),
        Event.settled Origin.retrieval (Outcome.fulfilled r), Event.insertCall r,
        Event.settled Origin.insertion (Outcome.rejected e)]) ∨
    (∃ r v, script env w res = [Event.retrieveCall (Val.arr [env.mh]),
        Event.settled Origin.retrieval (Outcome.fulfilled r), Event.insertCall r,
        Event.settled Origin.insertion (Outcome.fulfilled v), Event.resEnd res v]) := by
  unfold script
  rcases (env.retrieveObservations w.retrieveCalls (Val.arr [env.mh])).outcome? with _ | r | e
  · exact Or.inl rfl
  · dsimp only
    rcases (env.insertObservations w.insertCalls r).outcome? with _ | v | e
    · exact Or.inr (Or.inr (Or.inl ⟨r, rfl⟩))
    · exact Or.inr (Or.inr (Or.inr (Or.inr ⟨r, v, rfl⟩)))
    · exact Or.inr (Or.inr (Or.inr (Or.inl ⟨r, e, rfl⟩)))
  · exact Or.inr (Or.inl ⟨e, rfl⟩)

theorem script_success (env : Env) (w : World) (res : Nat) (R V : Val)
    (hr : (env.retrieveObservations w.retrieveCalls (Val.arr [env.mh])).resolvesWith R)
    (hi : (env.insertObservations w.insertCalls R).resolvesWith V) :
    script env w res = [Event.retrieveCall (Val.arr [env.mh]),
        Event.settled Origin.retrieval (Outcome.fulfilled R), Event.insertCall R,
        Event.settled Origin.insertion (Outcome.fulfilled V), Event.resEnd res V] := by
  rcases hr with hr | hr <;> rcases hi with hi | hi <;> simp [script, hr, hi, Future.outcome?]

theorem script_retrieval_rejects (env : Env) (w : World) (res : Nat) (E : Val)
    (hr : (env.retrieveObservations w.retrieveCalls (Val.arr [env.mh])).rejectsWith E) :
    script env w res = [Event.retrieveCall (Val.arr [env.mh]),
        Event.settled Origin.retrieval (Outcome.rejected E)] := by
  rcases hr with hr | hr <;> simp [script, hr, Future.outcome?]

theorem script_insertion_rejects (env : Env) (w : World) (res : Nat) (R E : Val)
    (hr : (env.retrieveObservations w.retrieveCalls (Val.arr [env.mh])).resolvesWith R)
    (hi : (env.insertObservations w.insertCalls R).rejectsWith E) :
    script env w res = [Event.retrieveCall (Val.arr [env.mh]),
        Event.settled Origin.retrieval (Outcome.fulfilled R), Event.insertCall R,
        Event.settled Origin.insertion (Outcome.rejected E)] := by
  rcases hr with hr | hr <;> rcases hi with hi | hi <;> simp [script, hr, hi, Future.outcome?]

theorem script_no_insert (env : Env) (w : World) (res : Nat)
    (hr : ∀ R, ¬ (env.retrieveObservations w.retrieveCalls (Val.arr [env.mh])).resolvesWith R) :
    script env w res = [Event.retrieveCall (Val.arr [env.mh])] ∨
    ∃ e, script env w res = [Event.retrieveCall (Val.arr [env.mh]),
        Event.settled Origin.retrieval (Outcome.rejected e)] := by
  unfold script
  generalize hf : env.retrieveObservations w.retrieveCalls (Val.arr [env.mh]) = fr at hr
  rcases fr with (R | E) | (R | E) | _
  · exact absurd (Or.inl rfl) (hr R)
  · exact Or.inr ⟨E, rfl⟩
  · exact absurd (Or.inr rfl) (hr R)
  · exact Or.inr ⟨E, rfl⟩
  · exact Or.inl rfl

theorem take_order {α : Type} (l : List α) (x y : α)
    (h : ∀ i : Nat, l[i]? = some x → ∃ j : Nat, j < i ∧ l[j]? = some y) (m i : Nat)
    (hi : (l.take m)[i]? = some x) : ∃ j : Nat, j < i ∧ (l.take m)[j]? = some y := by
  rw [List.getElem?_take] at hi
  split at hi
  · next hlt =>
    obtain ⟨j, hj, hy⟩ := h i hi
    exact ⟨j, hj, by rw [List.getElem?_take_of_lt (by omega), hy]⟩
  · cases hi

theorem script_insert_after_retrieval (env : Env) (w : World) (res : Nat) (i : Nat) (d : Val)
    (h : (script env w res)[i]? = some (Event.insertCall d)) :
    ∃ j, j < i ∧
      (script env w res)[j]? = some (Event.settled Origin.retrieval (Outcome.fulfilled d)) := by
  rcases script_cases env w res with hs | ⟨e0, hs⟩ | ⟨r0, hs⟩ | ⟨r0, e0, hs⟩ | ⟨r0, v0, hs⟩ <;>
  rw [hs] at h ⊢ <;>
  rcases i with _ | _ | _ | _ | _ | i <;> simp at h <;>
  exact ⟨1, by omega, by simp [h]⟩

theorem script_write_after_insertion (env : Env) (w : World) (res : Nat) (i r : Nat) (v : Val)
    (h : (script env w res)[i]? = some (Event.resEnd r v)) :
    ∃ j, j < i ∧
      (script env w res)[j]? = some (Event.settled Origin.insertion (Outcome.fulfilled v)) := by
  rcases script_cases env w res with hs | ⟨e0, hs⟩ | ⟨r0, hs⟩ | ⟨r0, e0, hs⟩ | ⟨r0, v0, hs⟩ <;>
  rw [hs] at h ⊢ <;>
  rcases i with _ | _ | _ | _ | _ | i <;> simp at h
  exact ⟨3, by omega, by simp [h]⟩

theorem take_script_counts (env : Env) (w : World) (res : Nat) (m : Nat) :
    ((script env w res).take m).countP Event.isResEnd ≤ 1 ∧
    ((script env w res).take m).countP Event.isInsertCall ≤ 1 ∧
    (1 ≤ m → ((script env w res).take m).countP Event.isRetrieveCall = 1) := by
  rcases script_cases env w res with hs | ⟨e, hs⟩ | ⟨r, hs⟩ | ⟨r, e, hs⟩ | ⟨r, v, hs⟩ <;>
  rw [hs] <;>
  rcases m with _ | _ | _ | _ | _ | _ | m <;>
  simp [List.countP_cons, Event.isResEnd, Event.isInsertCall, Event.isRetrieveCall]

theorem take_script_resolved (env : Env) (w : World) (res : Nat) (R : Val) (m : Nat)
    (hr : (env.retrieveObservations w.retrieveCalls (Val.arr [env.mh])).resolvesWith R)
    (hm : 3 ≤ m ∨ (script env w res).length ≤ m) :
    ∃ tl, (script env w res).take m = Event.retrieveCall (Val.arr [env.mh]) ::
        Event.settled Origin.retrieval (Outcome.fulfilled R) :: Event.insertCall R :: tl ∧
      ∀ e ∈ tl, e.isInsertCall = false := by
  have hs : ∃ rest, script env w res = Event.retrieveCall (Val.arr [env.mh]) ::
        Event.settled Origin.retrieval (Outcome.fulfilled R) :: Event.insertCall R :: rest ∧
      ∀ e ∈ rest, e.isInsertCall = false := by
    have ho : (env.retrieveObservations w.retrieveCalls (Val.arr [env.mh])).outcome? =
        some (Outcome.fulfilled R) := by
      rcases hr with hr | hr <;> rw [hr] <;> rfl
    unfold script
    rw [ho]
    dsimp only
    rcases (env.insertObservations w.insertCalls R).outcome? with _ | v | e <;>
    exact ⟨_, rfl, by simp [Event.isInsertCall]⟩
  obtain ⟨rest, hs, hrest⟩ := hs
  have h3 : 3 ≤ m := by
    rcases hm with h | h
    · exact h
    · rw [hs] at h
      simp at h
      omega
  obtain ⟨k, rfl⟩ : ∃ k, m = k + 3 := ⟨m - 3, by omega⟩
  refine ⟨rest.take k, by rw [hs]; rfl, ?_⟩
  intro e he
  exact hrest e (List.mem_of_mem_take he)

theorem replay_take_script (env : Env) (w : World) (res : Nat) (rs : Nat → Response) (m : Nat) :
    replay env rs ((script env w res).take m) = rs ∨
    ∃ v, Event.resEnd res v ∈ (script env w res).take m ∧
      replay env rs ((script env w res).take m) =
        Function.update rs res ((rs res).finish v) := by
  rcases script_cases env w res with hs | ⟨e, hs⟩ | ⟨r, hs⟩ | ⟨r, e, hs⟩ | ⟨r, v, hs⟩ <;>
  rw [hs] <;>
  rcases m with _ | _ | _ | _ | _ | _ | m <;>
  first
    | exact Or.inl rfl
    | (rcases hend : env.resEnd res (rs res) v with ret | err
       · exact Or.inr ⟨v, by simp, by simp [replay, Event.applyTo, hend]⟩
       · exact Or.inl (by simp [replay, Event.applyTo, hend]))

/-! ## The claims -/

/-- C1 (pass-through). When retrieval resolves with `R` and insertion, called
on `R`, resolves with `V`, then once the host has delivered both results the
last event of the invocation is the call `res.end(V)` and every call of
`res.end` in the invocation is that call, with exactly `V` as its argument.
A response object that takes `V` has then received exactly `V`: its record of
terminal writes grew by the one value `V` as it is, and it is terminated. A
response object that refuses `V` is as it was. -/
theorem pass_through (env : Env) (w : World) (req : Req) (res : Nat) (R V : Val)
    (fuel n : Nat) (hq : w.quiescent) (hf : 4 ≤ fuel) (hn : 2 ≤ n)
    (hr : (env.retrieveObservations w.retrieveCalls (Val.arr [env.mh])).resolvesWith R)
    (hi : (env.insertObservations w.insertCalls R).resolvesWith V) :
    (newEvents w (run env fuel w (invocation req res n))).getLast? =
        some (Event.resEnd res V) ∧
    (∀ r v, Event.resEnd r v ∈ newEvents w (run env fuel w (invocation req res n)) →
        r = res ∧ v = V) ∧
    (∀ ret, env.resEnd res (w.responses res) V = EndResult.returns ret →
        (run env fuel w (invocation req res n)).responses res =
          (w.responses res).finish V) ∧
    (∀ err, env.resEnd res (w.responses res) V = EndResult.throws err →
        (run env fuel w (invocation req res n)).responses = w.responses) := by
  obtain ⟨he, hrs⟩ := invocation_complete env w req res fuel n hq hf hn
  rw [script_success env w res R V hr hi] at he hrs
  rw [he, hrs]
  refine ⟨by simp, ?_, ?_, ?_⟩
  · intro r v hmem
    simpa using hmem
  · intro ret hend
    simp [replay, Event.applyTo, hend]
  · intro err hend
    simp [replay, Event.applyTo, hend]

/-- Witness of C1: the scenario of the specification. Retrieval resolves with
`{observations: [...]}`, insertion resolves with `{inserted: 3}`, and the
response, which takes any value, ends up having received `{inserted: 3}`. -/
theorem pass_through_witness :
    World.fresh.quiescent ∧ 4 ≤ 4 ∧ 2 ≤ 2 ∧
    (demoEnv.retrieveObservations World.fresh.retrieveCalls
        (Val.arr [demoEnv.mh])).resolvesWith demoBatch ∧
    (demoEnv.insertObservations World.fresh.insertCalls demoBatch).resolvesWith demoResult ∧
    (run demoEnv 4 World.fresh (invocation demoReq 0 2)).responses 0 =
      (World.fresh.responses 0).finish demoResult ∧
    newEvents World.fresh (run demoEnv 4 World.fresh (invocation demoReq 0 2)) =
      [Event.retrieveCall (Val.arr [Val.str "mountainhub"]),
        Event.settled Origin.retrieval (Outcome.fulfilled demoBatch),
        Event.insertCall demoBatch,
        Event.settled Origin.insertion (Outcome.fulfilled demoResult),
        Event.resEnd 0 demoResult] ∧
    ((run demoEnv 4 World.fresh (invocation demoReq 0 2)).responses 0).ended = [demoResult] ∧
    (newEvents World.fresh
      (run demoEnvStrings 4 World.fresh (invocation demoReq 0 2))).getLast? =
        some (Event.resEnd 0 demoResult) :=
  ⟨⟨rfl, rfl⟩, by decide, by decide, Or.inr rfl, Or.inr rfl,
    (pass_through demoEnv World.fresh demoReq 0 demoBatch demoResult 4 2 ⟨rfl, rfl⟩
      (by decide) (by decide) (Or.inr rfl) (Or.inr rfl)).2.2.1 Val.undefined rfl, rfl, rfl,
    (pass_through demoEnvStrings World.fresh demoReq 0 demoBatch demoResult 4 2 ⟨rfl, rfl⟩
      (by decide) (by decide) (Or.inr rfl) (Or.inr rfl)).1⟩

/-- C2 (order). In the events of an invocation every call of the insertion
function comes after an event in which the retrieval future fulfilled, and its
argument is the value retrieval fulfilled with; every terminal write comes
after an event in which the insertion future fulfilled with the written value.
When retrieval resolves with `R` and the host has delivered it, insertion is
called with `R` and with nothing else. -/
theorem insertion_after_retrieval (env : Env) (w : World) (req : Req) (res : Nat)
    (fuel n : Nat) (hq : w.quiescent) (hf : 4 ≤ fuel) :
    (∀ (i : Nat) (d : Val),
        (newEvents w (run env fuel w (invocation req res n)))[i]? = some (Event.insertCall d) →
        ∃ j : Nat, j < i ∧ (newEvents w (run env fuel w (invocation req res n)))[j]? =
          some (Event.settled Origin.retrieval (Outcome.fulfilled d))) ∧
    (∀ (i r : Nat) (v : Val),
        (newEvents w (run env fuel w (invocation req res n)))[i]? = some (Event.resEnd r v) →
        ∃ j : Nat, j < i ∧ (newEvents w (run env fuel w (invocation req res n)))[j]? =
          some (Event.settled Origin.insertion (Outcome.fulfilled v))) ∧
    (∀ R, (env.retrieveObservations w.retrieveCalls (Val.arr [env.mh])).resolvesWith R →
        1 ≤ n →
        Event.insertCall R ∈ newEvents w (run env fuel w (invocation req res n)) ∧
        ∀ d, Event.insertCall d ∈ newEvents w (run env fuel w (invocation req res n)) →
          d = R) := by
  obtain ⟨m, _, h1, _, he, _⟩ := invocation_events env w req res fuel n hq hf
  rw [he]
  refine ⟨?_, ?_, ?_⟩
  · intro i d h
    exact take_order _ _ _ (fun k hk => script_insert_after_retrieval env w res k d hk) m i h
  · intro i r v h
    exact take_order _ _ _ (fun k hk => script_write_after_insertion env w res k r v hk) m i h
  · intro R hr hn
    obtain ⟨tl, htl, hno⟩ := take_script_resolved env w res R m hr (h1 hn)
    rw [htl]
    refine ⟨by simp, ?_⟩
    intro d hd
    simp only [List.mem_cons] at hd
    rcases hd with hd | hd | hd | hd
    · cases hd
    · cases hd
    · cases hd
      rfl
    · have := hno _ hd
      simp [Event.isInsertCall] at this

/-- Witness of C2: in the scenario of the specification insertion is called
on the batch retrieval resolved with; it is the third event, and the second
is the retrieval future fulfilling with that batch. -/
theorem insertion_after_retrieval_witness :
    World.fresh.quiescent ∧ 4 ≤ 4 ∧
    (demoEnv.retrieveObservations World.fresh.retrieveCalls
        (Val.arr [demoEnv.mh])).resolvesWith demoBatch ∧ 1 ≤ 2 ∧
    Event.insertCall demoBatch ∈
      newEvents World.fresh (run demoEnv 4 World.fresh (invocation demoReq 0 2)) ∧
    (newEvents World.fresh (run demoEnv 4 World.fresh (invocation demoReq 0 2)))[2]? =
      some (Event.insertCall demoBatch) ∧
    (newEvents World.fresh (run demoEnv 4 World.fresh (invocation demoReq 0 2)))[1]? =
      some (Event.settled Origin.retrieval (Outcome.fulfilled demoBatch)) :=
  ⟨⟨rfl, rfl⟩, by decide, Or.inr rfl, by decide,
    ((insertion_after_retrieval demoEnv World.fresh demoReq 0 4 2 ⟨rfl, rfl⟩ (by decide)).2.2
      demoBatch (Or.inr rfl) (by decide)).1, rfl, rfl⟩

/-- C3 (provider list). In every run, from any state, over any sequence of
turns and whatever the requests are, every call of the retrieval function is
made with the one-element list `[mh]`, and there is exactly one such call per
invocation of the handler. -/
theorem provider_list (env : Env) (fuel : Nat) (w : World) (ts : List Turn) :
    (∀ e ∈ newEvents w (run env fuel w ts), e.isRetrieveCall = true →
        e = Event.retrieveCall (Val.arr [env.mh])) ∧
    (newEvents w (run env fuel w ts)).countP Event.isRetrieveCall =
      ts.countP Turn.isRequest := by
  obtain ⟨evs, et, _, hp, hc⟩ := advance_run env fuel w ts
  rw [newEvents_of_trace et]
  exact ⟨hp, hc⟩

/-- C4 (retrieval failure). When the retrieval future rejects with `E`, the
invocation logs no insertion call and no terminal write, and every response
object is as it was before, so the response stays unterminated. Once the host
has delivered the rejection the events of the invocation are the retrieval
call and its rejection and nothing else, nothing is left queued, and the last
promise of the chain is rejected with the same `E`: the rejection was neither
caught nor changed. -/
theorem retrieval_failure (env : Env) (w : World) (req : Req) (res : Nat) (E : Val)
    (fuel n : Nat) (hq : w.quiescent) (hf : 4 ≤ fuel)
    (hr : (env.retrieveObservations w.retrieveCalls (Val.arr [env.mh])).rejectsWith E) :
    (∀ e ∈ newEvents w (run env fuel w (invocation req res n)),
        e.isInsertCall = false ∧ e.isResEnd = false) ∧
    (run env fuel w (invocation req res n)).responses = w.responses ∧
    (1 ≤ n →
      newEvents w (run env fuel w (invocation req res n)) =
        [Event.retrieveCall (Val.arr [env.mh]),
          Event.settled Origin.retrieval (Outcome.rejected E)] ∧
      (run env fuel w (invocation req res n)).promises
          (promiseChain env (Val.arr [env.mh]) res w).1 =
        PState.settled (Outcome.rejected E) ∧
      (run env fuel w (invocation req res n)).quiescent) := by
  obtain ⟨m, hm, h1, _, he, hrs⟩ := invocation_events env w req res fuel n hq hf
  rw [script_retrieval_rejects env w res E hr] at he hrs h1
  rw [he, hrs, promiseChain_fst]
  refine ⟨?_, ?_, ?_⟩
  · intro e hmem
    have hmem2 := List.mem_of_mem_take hmem
    simp only [List.mem_cons, List.mem_singleton, List.not_mem_nil, or_false] at hmem2
    rcases hmem2 with h | h <;> rw [h] <;> exact ⟨rfl, rfl⟩
  · rcases m with _ | _ | m <;> simp [replay, Event.applyTo]
  · intro hn
    have h2 : 2 ≤ m := by
      rcases h1 hn with h | h
      · omega
      · simpa using h
    exact ⟨List.take_of_length_le h2, chain_rejected_retrieval env w req res E fuel n hq hf hn hr⟩

/-- Witness of C4: retrieval rejects with an error, the host delivers it, the
response object is untouched and still unterminated, and the last promise of
the chain is rejected with that error. -/
theorem retrieval_failure_witness :
    World.fresh.quiescent ∧ 4 ≤ 4 ∧
    (demoEnvRetrievalFails.retrieveObservations World.fresh.retrieveCalls
        (Val.arr [demoEnvRetrievalFails.mh])).rejectsWith demoError ∧
    (run demoEnvRetrievalFails 4 World.fresh (invocation demoReq 0 2)).responses =
      World.fresh.responses ∧
    (run demoEnvRetrievalFails 4 World.fresh (invocation demoReq 0 2)).promises
        (promiseChain demoEnvRetrievalFails (Val.arr [demoEnvRetrievalFails.mh]) 0
          World.fresh).1 =
      PState.settled (Outcome.rejected demoError) ∧
    ((run demoEnvRetrievalFails 4 World.fresh (invocation demoReq 0 2)).responses 0).finished =
      false :=
  ⟨⟨rfl, rfl⟩, by decide, Or.inr rfl,
    (retrieval_failure demoEnvRetrievalFails World.fresh demoReq 0 demoError 4 2 ⟨rfl, rfl⟩
      (by decide) (Or.inr rfl)).2.1,
    ((retrieval_failure demoEnvRetrievalFails World.fresh demoReq 0 demoError 4 2 ⟨rfl, rfl⟩
      (by decide) (Or.inr rfl)).2.2 (by decide)).2.1, rfl⟩

/-- C5 (insertion failure). When retrieval resolves with `R` and the insertion
future rejects with `E`, the invocation logs no terminal write and every
response object is as it was before. Once the host has delivered both
results the events are the two calls and their two outcomes, nothing is left
queued and the last promise of the chain is rejected with `E`. That is the
end a rejected retrieval has: against any collaborators whose retrieval
rejects with `E`, the response objects and the last promise of the chain end
up the same. -/
theorem insertion_failure (env : Env) (w : World) (req : Req) (res : Nat) (R E : Val)
    (fuel n : Nat) (hq : w.quiescent) (hf : 4 ≤ fuel)
    (hr : (env.retrieveObservations w.retrieveCalls (Val.arr [env.mh])).resolvesWith R)
    (hi : (env.insertObservations w.insertCalls R).rejectsWith E) :
    (∀ e ∈ newEvents w (run env fuel w (invocation req res n)), e.isResEnd = false) ∧
    (run env fuel w (invocation req res n)).responses = w.responses ∧
    (2 ≤ n →
      newEvents w (run env fuel w (invocation req res n)) =
        [Event.retrieveCall (Val.arr [env.mh]),
          Event.settled Origin.retrieval (Outcome.fulfilled R), Event.insertCall R,
          Event.settled Origin.insertion (Outcome.rejected E)] ∧
      (run env fuel w (invocation req res n)).promises
          (promiseChain env (Val.arr [env.mh]) res w).1 =
        PState.settled (Outcome.rejected E) ∧
      (run env fuel w (invocation req res n)).quiescent ∧
      ∀ (env2 : Env) (req2 : Req) (k : Nat), 1 ≤ k →
        (env2.retrieveObservations w.retrieveCalls (Val.arr [env2.mh])).rejectsWith E →
        (run env2 fuel w (invocation req2 res k)).responses =
          (run env fuel w (invocation req res n)).responses ∧
        (run env2 fuel w (invocation req2 res k)).promises
            (promiseChain env2 (Val.arr [env2.mh]) res w).1 =
          (run env fuel w (invocation req res n)).promises
            (promiseChain env (Val.arr [env.mh]) res w).1) := by
  simp only [promiseChain_fst]
  obtain ⟨m, hm, _, h2, he, hrs⟩ := invocation_events env w req res fuel n hq hf
  rw [script_insertion_rejects env w res R E hr hi] at he hrs h2
  have hsame : (run env fuel w (invocation req res n)).responses = w.responses := by
    rw [hrs]
    rcases m with _ | _ | _ | _ | m <;> simp [replay, Event.applyTo]
  refine ⟨?_, hsame, ?_⟩
  · intro e hmem
    rw [he] at hmem
    have hmem2 := List.mem_of_mem_take hmem
    simp only [List.mem_cons, List.mem_singleton, List.not_mem_nil, or_false] at hmem2
    rcases hmem2 with h | h | h | h <;> rw [h] <;> rfl
  · intro hn
    have hc := chain_rejected_insertion env w req res R E fuel n hq hf hn hr hi
    refine ⟨by rw [he]; exact List.take_of_length_le (h2 hn), hc.1, hc.2, ?_⟩
    intro env2 req2 k hk hr2
    obtain ⟨m2, _, _, _, _, hrs2⟩ := invocation_events env2 w req2 res fuel k hq hf
    rw [script_retrieval_rejects env2 w res E hr2] at hrs2
    have hsame2 : (run env2 fuel w (invocation req2 res k)).responses = w.responses := by
      rw [hrs2]
      rcases m2 with _ | _ | m2 <;> simp [replay, Event.applyTo]
    exact ⟨by rw [hsame2, hsame],
      by rw [(chain_rejected_retrieval env2 w req2 res E fuel k hq hf hk hr2).1, hc.1]⟩

/-- Witness of C5: retrieval resolves, insertion rejects, the response object
is untouched and still unterminated, and the last promise of the chain is
rejected with the error. -/
theorem insertion_failure_witness :
    World.fresh.quiescent ∧ 4 ≤ 4 ∧
    (demoEnvInsertionFails.retrieveObservations World.fresh.retrieveCalls
        (Val.arr [demoEnvInsertionFails.mh])).resolvesWith demoBatch ∧
    (demoEnvInsertionFails.insertObservations World.fresh.insertCalls
        demoBatch).rejectsWith demoError ∧
    (run demoEnvInsertionFails 4 World.fresh (invocation demoReq 0 2)).responses =
      World.fresh.responses ∧
    (run demoEnvInsertionFails 4 World.fresh (invocation demoReq 0 2)).promises
        (promiseChain demoEnvInsertionFails (Val.arr [demoEnvInsertionFails.mh]) 0
          World.fresh).1 =
      PState.settled (Outcome.rejected demoError) ∧
    ((run demoEnvInsertionFails 4 World.fresh (invocation demoReq 0 2)).responses 0).finished =
      false :=
  ⟨⟨rfl, rfl⟩, by decide, Or.inr rfl, Or.inl rfl,
    (insertion_failure demoEnvInsertionFails World.fresh demoReq 0 demoBatch demoError 4 2
      ⟨rfl, rfl⟩ (by decide) (Or.inr rfl) (Or.inl rfl)).2.1,
    ((insertion_failure demoEnvInsertionFails World.fresh demoReq 0 demoBatch demoError 4 2
      ⟨rfl, rfl⟩ (by decide) (Or.inr rfl) (Or.inl rfl)).2.2 (by decide)).2.1, rfl⟩

/-- C6 (exactly one terminal write). Whatever the collaborators and the
response object do, an invocation calls `res.end` at most once and the
response object receives at most one terminal write. When retrieval and
insertion both resolve and the host has delivered both results, the
invocation has called `res.end` exactly once, that call is its last event
and carries the insertion result, and nothing is left queued afterwards. On
the explicit condition that the response object takes that value, the object
has received it as its one terminal write and is terminated, and the last
promise of the chain is fulfilled; when the object refuses the value, it is
as it was and the last promise of the chain is rejected with what the call
threw. -/
theorem one_terminal_write (env : Env) (w : World) (req : Req) (res : Nat)
    (fuel n : Nat) (hq : w.quiescent) (hf : 4 ≤ fuel) :
    (newEvents w (run env fuel w (invocation req res n))).countP Event.isResEnd ≤ 1 ∧
    ((run env fuel w (invocation req res n)).responses res = w.responses res ∨
      ∃ v, (run env fuel w (invocation req res n)).responses res =
        (w.responses res).finish v) ∧
    (∀ R V, (env.retrieveObservations w.retrieveCalls (Val.arr [env.mh])).resolvesWith R →
        (env.insertObservations w.insertCalls R).resolvesWith V → 2 ≤ n →
        (newEvents w (run env fuel w (invocation req res n))).countP Event.isResEnd = 1 ∧
        (newEvents w (run env fuel w (invocation req res n))).getLast? =
          some (Event.resEnd res V) ∧
        (run env fuel w (invocation req res n)).quiescent ∧
        (∀ ret, env.resEnd res (w.responses res) V = EndResult.returns ret →
          ((run env fuel w (invocation req res n)).responses res).ended =
            (w.responses res).ended ++ [V] ∧
          ((run env fuel w (invocation req res n)).responses res).finished = true ∧
          (run env fuel w (invocation req res n)).promises
              (promiseChain env (Val.arr [env.mh]) res w).1 =
            PState.settled (Outcome.fulfilled ret)) ∧
        (∀ err, env.resEnd res (w.responses res) V = EndResult.throws err →
          (run env fuel w (invocation req res n)).responses = w.responses ∧
          (run env fuel w (invocation req res n)).promises
              (promiseChain env (Val.arr [env.mh]) res w).1 =
            PState.settled (Outcome.rejected err))) := by
  refine ⟨?_, ?_, ?_⟩
  · obtain ⟨m, _, _, _, he, _⟩ := invocation_events env w req res fuel n hq hf
    rw [he]
    exact (take_script_counts env w res m).1
  · obtain ⟨m, _, _, _, _, hrs⟩ := invocation_events env w req res fuel n hq hf
    rw [hrs]
    rcases replay_take_script env w res w.responses m with h | ⟨v, _, h⟩
    · exact Or.inl (by rw [h])
    · exact Or.inr ⟨v, by rw [h, Function.update_same]⟩
  · intro R V hr hi hn
    obtain ⟨he, hrs⟩ := invocation_complete env w req res fuel n hq hf hn
    rw [script_success env w res R V hr hi] at he hrs
    rw [he, hrs, promiseChain_fst]
    refine ⟨by simp [List.countP_cons, Event.isResEnd], by simp, ?_, ?_, ?_⟩
    · rcases hend : env.resEnd res (w.responses res) V with ret | err
      · exact (chain_written env w req res R V ret fuel n hq hf hn hr hi hend).2
      · exact (chain_refused env w req res R V err fuel n hq hf hn hr hi hend).2
    · intro ret hend
      exact ⟨by simp [replay, Event.applyTo, Response.finish, hend],
        by simp [replay, Event.applyTo, Response.finish, hend],
        (chain_written env w req res R V ret fuel n hq hf hn hr hi hend).1⟩
    · intro err hend
      exact ⟨by simp [replay, Event.applyTo, hend],
        (chain_refused env w req res R V err fuel n hq hf hn hr hi hend).1⟩

/-- Witness of C6: the scenario of the specification. The handler calls
`res.end` exactly once, as its last event. The response that takes any value
is terminated by it; the response that takes strings only refuses
`{inserted: 3}` and is still unterminated. -/
theorem one_terminal_write_witness :
    World.fresh.quiescent ∧ 4 ≤ 4 ∧
    (newEvents World.fresh
      (run demoEnv 4 World.fresh (invocation demoReq 0 2))).countP Event.isResEnd = 1 ∧
    (newEvents World.fresh (run demoEnv 4 World.fresh (invocation demoReq 0 2))).getLast? =
      some (Event.resEnd 0 demoResult) ∧
    ((run demoEnv 4 World.fresh (invocation demoReq 0 2)).responses 0).finished = true ∧
    (newEvents World.fresh
      (run demoEnvStrings 4 World.fresh (invocation demoReq 0 2))).countP Event.isResEnd = 1 ∧
    (run demoEnvStrings 4 World.fresh (invocation demoReq 0 2)).responses =
      World.fresh.responses ∧
    ((run demoEnvStrings 4 World.fresh (invocation demoReq 0 2)).responses 0).finished =
      false :=
  ⟨⟨rfl, rfl⟩, by decide,
    ((one_terminal_write demoEnv World.fresh demoReq 0 4 2 ⟨rfl, rfl⟩ (by decide)).2.2
      demoBatch demoResult (Or.inr rfl) (Or.inr rfl) (by decide)).1,
    ((one_terminal_write demoEnv World.fresh demoReq 0 4 2 ⟨rfl, rfl⟩ (by decide)).2.2
      demoBatch demoResult (Or.inr rfl) (Or.inr rfl) (by decide)).2.1,
    (((one_terminal_write demoEnv World.fresh demoReq 0 4 2 ⟨rfl, rfl⟩ (by decide)).2.2
      demoBatch demoResult (Or.inr rfl) (Or.inr rfl) (by decide)).2.2.2.1
        Val.undefined rfl).2.1,
    ((one_terminal_write demoEnvStrings World.fresh demoReq 0 4 2 ⟨rfl, rfl⟩ (by decide)).2.2
      demoBatch demoResult (Or.inr rfl) (Or.inr rfl) (by decide)).1,
    (((one_terminal_write demoEnvStrings World.fresh demoReq 0 4 2 ⟨rfl, rfl⟩
      (by decide)).2.2 demoBatch demoResult (Or.inr rfl) (Or.inr rfl) (by decide)).2.2.2.2
        demoTypeError rfl).1,
    rfl⟩

/-- C7 (request independence). With the same collaborators, the same response
and the same state, two requests make the handler do the same: the handler
call gives the same result and state, and whatever turns follow, the whole
run, with its trace of collaborator calls and their arguments and its
response objects, is the same. -/
theorem request_independence (env : Env) (fuel : Nat) (w : World) (req1 req2 : Req)
    (res : Nat) (ts : List Turn) :
    importHandler env req1 res w = importHandler env req2 res w ∧
    run env fuel w (Turn.request req1 res :: ts) =
      run env fuel w (Turn.request req2 res :: ts) :=
  ⟨rfl, rfl⟩

/-- C8 (response frame). In every run, from any state and over any sequence of
turns, the response objects change by the logged calls of `res.end` and by
nothing else, and the status code and the headers (the content type among
them) of every response object stay as they were. In one invocation the
response objects other than `res` are untouched, and `res` itself is either
untouched or has received one terminal write that is logged. -/
theorem response_frame (env : Env) (w : World) (req : Req) (res : Nat)
    (fuel n : Nat) (hq : w.quiescent) (hf : 4 ≤ fuel) :
    (∀ (w2 : World) (fuel2 : Nat) (ts : List Turn),
        (run env fuel2 w2 ts).responses =
          replay env w2.responses (newEvents w2 (run env fuel2 w2 ts)) ∧
        ∀ i, ((run env fuel2 w2 ts).responses i).statusCode = (w2.responses i).statusCode ∧
          ((run env fuel2 w2 ts).responses i).headers = (w2.responses i).headers) ∧
    (∀ i, i ≠ res → (run env fuel w (invocation req res n)).responses i = w.responses i) ∧
    ((run env fuel w (invocation req res n)).responses res = w.responses res ∨
      ∃ v, Event.resEnd res v ∈ newEvents w (run env fuel w (invocation req res n)) ∧
        (run env fuel w (invocation req res n)).responses res =
          (w.responses res).finish v) := by
  refine ⟨?_, ?_, ?_⟩
  · intro w2 fuel2 ts
    obtain ⟨evs, et, er, _, _⟩ := advance_run env fuel2 w2 ts
    rw [newEvents_of_trace et, er]
    exact ⟨rfl, fun i => replay_frame env w2.responses evs i⟩
  · intro i hi
    obtain ⟨m, _, _, _, _, hrs⟩ := invocation_events env w req res fuel n hq hf
    rw [hrs]
    rcases replay_take_script env w res w.responses m with h | ⟨v, _, h⟩
    · rw [h]
    · rw [h, Function.update_noteq hi]
  · obtain ⟨m, _, _, _, he, hrs⟩ := invocation_events env w req res fuel n hq hf
    rw [hrs, he]
    rcases replay_take_script env w res w.responses m with h | ⟨v, hv, h⟩
    · exact Or.inl (by rw [h])
    · exact Or.inr ⟨v, hv, by rw [h, Function.update_same]⟩

/-- Witness of C8: in the scenario of the specification the response keeps
its status code and its headers, and another response object is untouched. -/
theorem response_frame_witness :
    World.fresh.quiescent ∧ 4 ≤ 4 ∧
    (((run demoEnv 4 World.fresh (invocation demoReq 0 2)).responses 0).statusCode =
        (World.fresh.responses 0).statusCode ∧
      ((run demoEnv 4 World.fresh (invocation demoReq 0 2)).responses 0).headers =
        (World.fresh.responses 0).headers) ∧
    (run demoEnv 4 World.fresh (invocation demoReq 0 2)).responses 1 =
      World.fresh.responses 1 ∧
    ((run demoEnv 4 World.fresh (invocation demoReq 0 2)).responses 0).statusCode = 200 :=
  ⟨⟨rfl, rfl⟩, by decide,
    ((response_frame demoEnv World.fresh demoReq 0 4 2 ⟨rfl, rfl⟩ (by decide)).1
      World.fresh 4 (invocation demoReq 0 2)).2 0,
    (response_frame demoEnv World.fresh demoReq 0 4 2 ⟨rfl, rfl⟩ (by decide)).2.1 1
      (by decide), rfl⟩

/-- C9 (single attempt). Whatever the collaborators do, an invocation calls
the retrieval function exactly once and the insertion function at most once.
The insertion function is called exactly once when retrieval resolves and the
host has delivered the result, and not at all when retrieval does not
resolve. -/
theorem single_attempt (env : Env) (w : World) (req : Req) (res : Nat)
    (fuel n : Nat) (hq : w.quiescent) (hf : 4 ≤ fuel) :
    (newEvents w (run env fuel w (invocation req res n))).countP Event.isRetrieveCall = 1 ∧
    (newEvents w (run env fuel w (invocation req res n))).countP Event.isInsertCall ≤ 1 ∧
    (∀ R, (env.retrieveObservations w.retrieveCalls (Val.arr [env.mh])).resolvesWith R →
        1 ≤ n →
        (newEvents w (run env fuel w (invocation req res n))).countP Event.isInsertCall = 1) ∧
    ((∀ R, ¬ (env.retrieveObservations w.retrieveCalls (Val.arr [env.mh])).resolvesWith R) →
        (newEvents w (run env fuel w (invocation req res n))).countP Event.isInsertCall = 0) := by
  obtain ⟨m, hm, h1, _, he, _⟩ := invocation_events env w req res fuel n hq hf
  rw [he]
  refine ⟨(take_script_counts env w res m).2.2 hm, (take_script_counts env w res m).2.1, ?_, ?_⟩
  · intro R hr hn
    obtain ⟨tl, htl, hno⟩ := take_script_resolved env w res R m hr (h1 hn)
    rw [htl]
    have hz : tl.countP Event.isInsertCall = 0 := by
      rw [List.countP_eq_zero]
      intro e hmem
      simp [hno e hmem]
    simp [List.countP_cons, Event.isInsertCall, hz]
  · intro hno
    rcases script_no_insert env w res hno with hs | ⟨e, hs⟩ <;> rw [hs] <;>
    rcases m with _ | _ | _ | m <;> simp [List.countP_cons, Event.isInsertCall]

/-- Witness of C9: in the scenario of the specification retrieval is called
exactly once and insertion is called exactly once. -/
theorem single_attempt_witness :
    World.fresh.quiescent ∧ 4 ≤ 4 ∧
    (newEvents World.fresh
      (run demoEnv 4 World.fresh (invocation demoReq 0 2))).countP Event.isRetrieveCall = 1 ∧
    (newEvents World.fresh
      (run demoEnv 4 World.fresh (invocation demoReq 0 2))).countP Event.isInsertCall = 1 :=
  ⟨⟨rfl, rfl⟩, by decide,
    (single_attempt demoEnv World.fresh demoReq 0 4 2 ⟨rfl, rfl⟩ (by decide)).1,
    (single_attempt demoEnv World.fresh demoReq 0 4 2 ⟨rfl, rfl⟩ (by decide)).2.2.1
      demoBatch (Or.inr rfl) (by decide)⟩

/-- C10 (return value). The call of the handler hands back `undefined`,
whatever the request, the response, the state and the collaborators are; so
two calls hand back the same value whether the import they start will
complete, fail or hang, and the promise of the chain is not handed back. -/
theorem handler_returns_undefined (env env2 : Env) (req req2 : Req) (res res2 : Nat)
    (w w2 : World) :
    (importHandler env req res w).1 = Val.undefined ∧
    (importHandler env req res w).1 = (importHandler env2 req2 res2 w2).1 :=
  ⟨rfl, rfl⟩
end CsoApi
